import Mathlib

/-!
Formal model of the time-series aggregation and growth-metrics engine of the
India Electricity Generation Dashboard (`src/App.tsx`).

Dates are modelled as Lean `String`s, exactly as in the source, and numeric
values as rationals (`ℚ`): the source works with JavaScript numbers, and every
value reached by the theorems below stays well inside the exactly-representable
range, so rational arithmetic is a faithful model of the arithmetic actually
performed.  JavaScript `Map`s are modelled as association lists with
`Map.get`/`Map.set` semantics (`jsGet`/`jsSet`), and `null`/`undefined` as
`Option.none`.
-/

/-- Numeric value of a decimal digit character (`'0'` ↦ 0, …, `'9'` ↦ 9). -/
def charVal (c : Char) : ℕ := c.toNat - 48

/-- The decimal digit character for `n ≤ 9`; models a single digit of
JavaScript number-to-string conversion. -/
def digitChar (n : ℕ) : Char := Char.ofNat (48 + n)

/-- Decimal digit test on the code point; models the regex class `\d`. -/
def isDigitCh (c : Char) : Bool := decide (48 ≤ c.toNat) && decide (c.toNat ≤ 57)

/-- Whitespace test covering the characters JS `trim` removes that occur in
this engine's inputs (space, tab, carriage return, newline). -/
def isWsCh (c : Char) : Bool := c == ' ' || c == '\t' || c == '\r' || c == '\n'

/-- Models `String.prototype.trim` on a character list. -/
def jsTrimList (l : List Char) : List Char :=
  ((l.dropWhile isWsCh).reverse.dropWhile isWsCh).reverse

/-- Models `String.prototype.trim`. -/
def jsTrim (s : String) : String := String.mk (jsTrimList s.data)

/-- Models `String.prototype.split` with a one-character separator: the
maximal separator-free segments, keeping empty segments (so `"".split(sep)`
is `[""]` and a trailing separator yields a final empty segment). -/
def splitOnChar (sep : Char) (l : List Char) : List (List Char) :=
  l.foldr
    (fun c acc =>
      match acc with
      | h :: t => if c == sep then [] :: h :: t else (c :: h) :: t
      | [] => [[c]])
    [[]]

/-- Sum of the decimal values of a digit list, used below. -/
def digitsVal (l : List Char) : ℕ := l.foldl (fun a c => 10 * a + charVal c) 0

/-- Models `Number(s)` for the digit-only slices (`slice(0,4)`, `slice(5,7)`,
`slice(8,10)`) the engine feeds it, with 0 for the empty slice
(`Number("") = 0`); a non-digit slice, which only arises from garbage keys
that never enter the store, also maps to 0. -/
def numOrZero (l : List Char) : ℕ :=
  if l.isEmpty then 0 else if l.all isDigitCh then digitsVal l else 0

/-- Numeric value of a two-digit character pair, as computed by
JavaScript `Number` on a two-digit string. -/
def num2 (a b : Char) : ℕ := 10 * charVal a + charVal b

/-- Numeric value of a four-digit character tuple, as computed by
JavaScript `Number` on a four-digit string. -/
def num4 (a b c d : Char) : ℕ :=
  10 * (10 * (10 * charVal a + charVal b) + charVal c) + charVal d

/-- Fuelled helper for `decChars`; the fuel is an upper bound on the recursion
depth, so that the definition is structural and kernel-reducible. -/
def decCharsAux : ℕ → ℕ → List Char
  | 0, _ => []
  | fuel + 1, n =>
    if n < 10 then [digitChar n]
    else decCharsAux fuel (n / 10) ++ [digitChar (n % 10)]

/-- Decimal digit characters of a natural number; models JavaScript
number-to-string conversion (as in template literals) for naturals. -/
def decChars (n : ℕ) : List Char := decCharsAux (n + 1) n

/-- Decimal string of a natural number; models `${n}` for a JS number. -/
def natStr (n : ℕ) : String := String.mk (decChars n)

/-- Decimal string of an integer; models `${i}` for a JS number. -/
def intStr (i : ℤ) : String :=
  if i < 0 then "-" ++ natStr (-i).toNat
  else natStr i.toNat

/-- Digit characters of `n`, left-padded with `'0'` to width 2; models
`String(n).padStart(2, "0")` for `n ≤ 99`. -/
def pad2Chars (n : ℕ) : List Char :=
  if n < 10 then '0' :: decChars n else decChars n

/-- Models `String(n).padStart(2, "0")` (`n ≤ 99`). -/
def pad2 (n : ℕ) : String := String.mk (pad2Chars n)

/-- Digit characters of `n`, left-padded with `'0'` to width 4; used to model
the 4-digit year field of `Date.prototype.toISOString`. -/
def pad4Chars (n : ℕ) : List Char :=
  let l := decChars n
  List.replicate (4 - l.length) '0' ++ l

/-- Leap-year test of the proleptic Gregorian calendar. -/
def isLeapYear (y : ℕ) : Bool :=
  (y % 4 == 0 && y % 100 != 0) || y % 400 == 0

/-- Number of days in month `m` (1-based) of year `y`. -/
def daysInMonth (y m : ℕ) : ℕ :=
  if m == 2 then (if isLeapYear y then 29 else 28)
  else if m == 4 || m == 6 || m == 9 || m == 11 then 30
  else 31

/-- Models the `/^\d{2}-\d{2}-\d{4}$/` test of `parseInputDate`. -/
def ddmmyyyyShape (t : String) : Bool :=
  match t.data with
  | [a, b, h1, c, d, h2, e, f, g, k] =>
    isDigitCh a && isDigitCh b && h1 == '-' && isDigitCh c && isDigitCh d && h2 == '-' &&
      isDigitCh e && isDigitCh f && isDigitCh g && isDigitCh k
  | _ => false

/-- Models the `/^\d{4}-\d{2}-\d{2}$/` test of `parseISOKey`. -/
def yyyymmddShape (t : String) : Bool :=
  match t.data with
  | [a, b, c, d, h1, e, f, h2, g, k] =>
    isDigitCh a && isDigitCh b && isDigitCh c && isDigitCh d && h1 == '-' &&
      isDigitCh e && isDigitCh f && h2 == '-' && isDigitCh g && isDigitCh k
  | _ => false

/-- Day-of-month read off a `DD-MM-YYYY`-shaped string (0 on any other shape). -/
def ddOfDisplay (t : String) : ℕ :=
  match t.data with
  | a :: b :: _ => num2 a b
  | _ => 0

/-- Month read off a `DD-MM-YYYY`-shaped string (0 on any other shape). -/
def mmOfDisplay (t : String) : ℕ :=
  match t.data with
  | _ :: _ :: _ :: c :: d :: _ => num2 c d
  | _ => 0

/-- Year read off a `DD-MM-YYYY`-shaped string (0 on any other shape). -/
def yyyyOfDisplay (t : String) : ℕ :=
  match t.data with
  | _ :: _ :: _ :: _ :: _ :: _ :: e :: f :: g :: k :: _ => num4 e f g k
  | _ => 0

/-- Year read off a `YYYY-MM-DD`-shaped string (0 on any other shape). -/
def yyyyOfIso (t : String) : ℕ :=
  match t.data with
  | a :: b :: c :: d :: _ => num4 a b c d
  | _ => 0

/-- Month read off a `YYYY-MM-DD`-shaped string (0 on any other shape). -/
def mmOfIso (t : String) : ℕ :=
  match t.data with
  | _ :: _ :: _ :: _ :: _ :: e :: f :: _ => num2 e f
  | _ => 0

/-- Day read off a `YYYY-MM-DD`-shaped string (0 on any other shape). -/
def ddOfIso (t : String) : ℕ :=
  match t.data with
  | _ :: _ :: _ :: _ :: _ :: _ :: _ :: _ :: g :: k :: _ => num2 g k
  | _ => 0

/-- Spec-side notion used by the claims: the triple `(y, m, d)` names a real
Gregorian calendar date (month in range, day existing in that month). -/
def realGregorian (y m d : ℕ) : Bool :=
  decide (1 ≤ m) && decide (m ≤ 12) && decide (1 ≤ d) && decide (d ≤ daysInMonth y m)

/-- Models `new Date(s + "T00:00:00Z")` validity for a `\d{4}-\d{2}-\d{2}`
string: modern engines accept it exactly when the components form a real
calendar date (out-of-range month or day yields an Invalid Date / NaN time). -/
def validIsoTriple (y m d : ℕ) : Bool :=
  decide (1 ≤ m) && decide (m ≤ 12) && decide (1 ≤ d) && decide (d ≤ daysInMonth y m)

/-- Models the check sequence of the display branch of `parseInputDate`:
`new Date(Date.UTC(yyyy, mm - 1, dd))` followed by the three
`getUTCFullYear/getUTCMonth/getUTCDate` comparisons.  `Date.UTC` maps a year
argument in `0..99` to `1900 + year`, and it normalises month/day overflow,
so the triple survives the round trip unchanged exactly when the year is at
least 100, the month is in `1..12` and the day exists in that month (the NaN
check never fires for 4-digit years). -/
def utcRoundTripOk (y m d : ℕ) : Bool :=
  decide (100 ≤ y) && decide (1 ≤ m) && decide (m ≤ 12) && decide (1 ≤ d) &&
    decide (d ≤ daysInMonth y m)

/-- Models `parseISOKey` (`App.tsx:21`): regex test for `YYYY-MM-DD`, then a
calendar-validity check via `new Date(s + "T00:00:00Z")`; returns the string
unchanged on success. -/
def parseISOKey (s : String) : Option String :=
  match s.data with
  | [a, b, c, d, h1, e, f, h2, g, k] =>
    if isDigitCh a && isDigitCh b && isDigitCh c && isDigitCh d && h1 == '-' &&
        isDigitCh e && isDigitCh f && h2 == '-' && isDigitCh g && isDigitCh k then
      if validIsoTriple (num4 a b c d) (num2 e f) (num2 g k) then some s else none
    else none
  | _ => none

/-- Models `parseInputDate` (`App.tsx:28`): trims the input; on a `DD-MM-YYYY`
match, reads the three numeric fields (`split("-").map(Number)`, realised here
by reading the digit characters directly, which agrees with `split` on every
string matching the pattern), validates them through the UTC-date round trip,
and renders the canonical ISO string
`` `${yyyy}-${String(mm).padStart(2, "0")}-${String(dd).padStart(2, "0")}` ``;
otherwise it falls through to `parseISOKey` (which itself rejects any string
not matching `/^\d{4}-\d{2}-\d{2}$/`, so delegating to it directly is exactly
the source's second branch followed by the final `return null`). -/
def parseInputDate (s : String) : Option String :=
  let t := jsTrim s
  match t.data with
  | [a, b, h1, c, d, h2, e, f, g, k] =>
    if isDigitCh a && isDigitCh b && h1 == '-' && isDigitCh c && isDigitCh d && h2 == '-' &&
        isDigitCh e && isDigitCh f && isDigitCh g && isDigitCh k then
      if utcRoundTripOk (num4 e f g k) (num2 c d) (num2 a b) then
        some (String.mk (decChars (num4 e f g k) ++ '-' :: pad2Chars (num2 c d) ++
          '-' :: pad2Chars (num2 a b)))
      else none
    else parseISOKey t
  | _ => parseISOKey t

/-- Models `formatDDMMYYYY` (`App.tsx:44`): falsy or non-`YYYY-MM-DD` input
yields the placeholder; otherwise the three fields are re-joined as
`DD-MM-YYYY`. -/
def formatDDMMYYYY (iso : String) : String :=
  match iso.data with
  | [a, b, c, d, h1, e, f, h2, g, k] =>
    if isDigitCh a && isDigitCh b && isDigitCh c && isDigitCh d && h1 == '-' &&
        isDigitCh e && isDigitCh f && h2 == '-' && isDigitCh g && isDigitCh k then
      String.mk ([g, k, '-', e, f, '-', a, b, c, d])
    else "—"
  | _ => "—"

/-- Models `safeDiv` (`App.tsx:113`): `null` divisor and zero divisor both
yield `null`; otherwise the exact quotient. -/
def safeDiv (n : ℚ) (d : Option ℚ) : Option ℚ :=
  match d with
  | none => none
  | some x => if x = 0 then none else some (n / x)

/-- Models `growthPct` (`App.tsx:118`): `safeDiv(curr - prev, prev)` scaled by
100 (a `null` `prev` coerces to 0 in the subtraction, and `safeDiv` then
returns `null` anyway). -/
def growthPct (curr : ℚ) (prev : Option ℚ) : Option ℚ :=
  match safeDiv (curr - prev.getD 0) prev with
  | none => none
  | some r => some (r * 100)

/-- Spec-side restatement of `growthPct` (spec §4.4): `null` if `prev` is zero
or absent, otherwise `(curr - prev) / prev * 100`. -/
def growthPctSpec (curr : ℚ) (prev : Option ℚ) : Option ℚ :=
  match prev with
  | none => none
  | some p => if p = 0 then none else some ((curr - p) / p * 100)

/-- Models `Map.prototype.get`: the value at the first (unique) matching key. -/
def jsGet {κ α : Type} [DecidableEq κ] : List (κ × α) → κ → Option α
  | [], _ => none
  | (k', v) :: t, k => if k' = k then some v else jsGet t k

/-- Models `Map.prototype.set`: replaces the value at an existing key in
place, otherwise appends the new entry (JS `Map`s preserve insertion order). -/
def jsSet {κ α : Type} [DecidableEq κ] : List (κ × α) → κ → α → List (κ × α)
  | [], k, v => [(k, v)]
  | (k', v') :: t, k, v =>
    if k' = k then (k, v) :: t else (k', v') :: jsSet t k v

/-- A daily observation, as in `type DailyPoint` (`App.tsx:145`). -/
structure DailyPoint where
  date : String
  generation_gwh : ℚ
deriving DecidableEq

/-- Models `mergeRecords` (`App.tsx:127`): copies the existing map and then
`set`s each incoming record in sequence. -/
def mergeRecords (existingMap : List (String × ℚ)) (incoming : List DailyPoint) :
    List (String × ℚ) :=
  incoming.foldl (fun next r => jsSet next r.date r.generation_gwh) existingMap

/-- The value of the last record in `rs` carrying date `k`, if any; used to
state the last-write-wins property of `mergeRecords`. -/
def lastAssoc (rs : List DailyPoint) (k : String) : Option ℚ :=
  rs.foldl (fun acc r => if r.date = k then some r.generation_gwh else acc) none

/-- One month's accumulator in `buildMonthDayMap` (`App.tsx:147`): running
total, highest day seen, and per-day sums. -/
structure MonthRec where
  total : ℚ
  maxDay : ℕ
  byDay : List (ℕ × ℚ)
deriving DecidableEq

/-- Models `monthKey` (`App.tsx:95`): `isoDate.slice(0, 7)`. -/
def monthKey (isoDate : String) : String := String.mk (isoDate.data.take 7)

/-- Models `Number(d.date.slice(8, 10))` as used in `buildMonthDayMap`; on the
digit slices produced by store keys this is exact (`Number("") = 0` likewise
maps to 0). -/
def dayOfIso (isoDate : String) : ℕ :=
  numOrZero ((isoDate.data.drop 8).take 2)

/-- Models `getYear` (`App.tsx:105`): `Number(ym.slice(0, 4))`, as an integer
so that the `getYear(r.month) - 1` arithmetic below matches JS. -/
def getYear (ym : String) : ℤ := (numOrZero (ym.data.take 4) : ℕ)

/-- Models `getMonth` (`App.tsx:109`): `Number(ym.slice(5, 7))`. -/
def getMonth (ym : String) : ℕ := numOrZero ((ym.data.drop 5).take 2)

/-- Models `addMonths` (`App.tsx:99`): month arithmetic through
`Date.UTC(y, m - 1 + delta, 1)`, which floors into years (Euclidean division
by 12 here) and maps a year argument in `0..99` to `1900 + year`, then
renders `` `${getUTCFullYear()}-${pad2(getUTCMonth() + 1)}` ``. -/
def addMonths (ym : String) (delta : ℤ) : String :=
  let y : ℤ := (numOrZero (ym.data.take 4) : ℕ)
  let m : ℤ := (numOrZero ((ym.data.drop 5).take 2) : ℕ)
  let y := if 0 ≤ y ∧ y ≤ 99 then y + 1900 else y
  let tot : ℤ := y * 12 + (m - 1) + delta
  intStr (Int.ediv tot 12) ++ "-" ++ pad2 ((Int.emod tot 12).toNat + 1)

/-- The `` `${getYear(r.month) - 1}-${String(getMonth(r.month)).padStart(2, "0")}` ``
expression of `toMonthly` (`App.tsx:193`). -/
def prevYearKey (ym : String) : String :=
  intStr (getYear ym - 1) ++ "-" ++ pad2 (getMonth ym)

/-- One step of the loop body of `buildMonthDayMap` (`App.tsx:147`): fetch (or
freshly initialise) the month's record, then add the point's value to the
running total, update the highest day, and add the value into the per-day sum.
The in-place mutation of the fetched record is modelled by writing the updated
record back with `jsSet` (same position, same key). -/
def bmStep (acc : List (String × MonthRec)) (d : DailyPoint) : List (String × MonthRec) :=
  let m := monthKey d.date
  let day := dayOfIso d.date
  let rec0 := (jsGet acc m).getD ⟨0, 0, []⟩
  jsSet acc m
    ⟨rec0.total + d.generation_gwh, max rec0.maxDay day,
      jsSet rec0.byDay day (((jsGet rec0.byDay day).getD 0) + d.generation_gwh)⟩

/-- Models `buildMonthDayMap` (`App.tsx:147`). -/
def buildMonthDayMap (sortedDaily : List DailyPoint) : List (String × MonthRec) :=
  sortedDaily.foldl bmStep []

/-- One iteration of the `sumMonthUpToDay` loop (`App.tsx:161`): day `i + 1`
adds its value to the running sum and sets the `hasAny` flag when present. -/
def sumDayStep (byDay : List (ℕ × ℚ)) (p : ℚ × Bool) (i : ℕ) : ℚ × Bool :=
  match jsGet byDay (i + 1) with
  | some v => (p.1 + v, true)
  | none => p

/-- Models `sumMonthUpToDay` (`App.tsx:161`), continued: the
`for (day = 1; day <= dayLimit; day++)` accumulation realised as a fold of
`sumDayStep` over `0..dayLimit-1`. -/
def sumMonthUpToDay (monthRec : Option MonthRec) (dayLimit : ℕ) : Option ℚ :=
  match monthRec with
  | none => none
  | some rec =>
    let p := (List.range dayLimit).foldl (sumDayStep rec.byDay) (0, false)
    if p.2 then some p.1 else none

/-- One row of the monthly rollup, as in `toMonthly`'s output (`App.tsx:179`). -/
structure MonthlyRecord where
  month : String
  total_gwh : ℚ
  max_day : ℕ
  yoy_pct : Option ℚ
  mom_pct : Option ℚ
deriving DecidableEq

/-- Insertion step for `sortStrs`. -/
def insertSorted (x : String) : List String → List String
  | [] => [x]
  | y :: t => if x ≤ y then x :: y :: t else y :: insertSorted x t

/-- Sorts strings ascending; models `Array.from(monthMap.keys()).sort(sortISO)`
(`sortISO` is the lexicographic three-way comparison, `App.tsx:123`). -/
def sortStrs (l : List String) : List String := l.foldr insertSorted []

/-- The completed `toMonthly` row for month `m` (`App.tsx:179` and the
fill-in loop at `App.tsx:187`): total and `max_day` from the month's record,
`mom_pct` against days `1..max_day` of `addMonths(month, -1)`, `yoy_pct`
against days `1..max_day` of the same month one year earlier. -/
def monthRow (monthMap : List (String × MonthRec)) (m : String) : MonthlyRecord :=
  let rec0 := (jsGet monthMap m).getD ⟨0, 0, []⟩
  let prevComparableMoM := sumMonthUpToDay (jsGet monthMap (addMonths m (-1))) rec0.maxDay
  let momPct := match prevComparableMoM with
    | some p => growthPct rec0.total (some p)
    | none => none
  let prevComparableYoY := sumMonthUpToDay (jsGet monthMap (prevYearKey m)) rec0.maxDay
  let yoyPct := match prevComparableYoY with
    | some p => growthPct rec0.total (some p)
    | none => none
  ⟨m, rec0.total, rec0.maxDay, yoyPct, momPct⟩

/-- Models `toMonthly` (`App.tsx:175`).  The source first builds the rows and
then fills `mom_pct`/`yoy_pct` in a second loop; each row's fields depend only
on the frozen `monthMap`, so building each completed row in one pass
(`monthRow`) is the same function. -/
def toMonthly (sortedDaily : List DailyPoint) : List MonthlyRecord :=
  let monthMap := buildMonthDayMap sortedDaily
  (sortStrs (monthMap.map (·.1))).map (monthRow monthMap)

/-- The points of `sortedDaily` falling in month `ym`; spec-side grouping used
to state what `toMonthly` computes. -/
def monthPts (daily : List DailyPoint) (ym : String) : List DailyPoint :=
  daily.filter (fun d => monthKey d.date == ym)

/-- Spec-side month total: the sum of all values observed in month `ym`. -/
def monthTotal (daily : List DailyPoint) (ym : String) : ℚ :=
  ((monthPts daily ym).map (·.generation_gwh)).sum

/-- Spec-side `max_day`: the highest day-of-month observed in month `ym`
(0 when the month has no observation, matching the accumulator's seed). -/
def monthMaxDay (daily : List DailyPoint) (ym : String) : ℕ :=
  (monthPts daily ym).foldl (fun a d => max a (dayOfIso d.date)) 0

/-- The points of month `ym` observed on day `day`. -/
def dayPts (daily : List DailyPoint) (ym : String) (day : ℕ) : List DailyPoint :=
  (monthPts daily ym).filter (fun d => dayOfIso d.date == day)

/-- Spec-side per-day sum: `none` when day `day` of month `ym` has no
observation, otherwise the sum of that day's values. -/
def daySum (daily : List DailyPoint) (ym : String) (day : ℕ) : Option ℚ :=
  if (dayPts daily ym day).isEmpty then none
  else some (((dayPts daily ym day).map (·.generation_gwh)).sum)

/-- Spec-side month-to-date-comparable sum (spec §4.4, glossary): the sum of
month `ym`'s values restricted to days `1..k`, or `none` when the month has no
observation on any day in `1..k`. -/
def restrictedSum (daily : List DailyPoint) (ym : String) (k : ℕ) : Option ℚ :=
  let l := (monthPts daily ym).filter
    (fun d => decide (1 ≤ dayOfIso d.date) && decide (dayOfIso d.date ≤ k))
  if l.isEmpty then none else some ((l.map (·.generation_gwh)).sum)

/-- Spec-side growth against a month-to-date-comparable sum: `growthPct` of
the month total against the restricted sum, `none` when the compared month has
no observation on any day in `1..k`. -/
def specComparableGrowth (daily : List DailyPoint) (ym : String) (k : ℕ) (total : ℚ) :
    Option ℚ :=
  match restrictedSum daily ym k with
  | some p => growthPct total (some p)
  | none => none

/-- Lowercases a string character-wise; models `String.prototype.toLowerCase`
on the ASCII header tokens it is applied to. -/
def lowerStr (s : String) : String := String.mk (s.data.map Char.toLower)

/-- Whether `l` starts with `p`. -/
def listStartsWith : List Char → List Char → Bool
  | _, [] => true
  | [], _ :: _ => false
  | a :: l, b :: p => a == b && listStartsWith l p

/-- Whether `sub` occurs contiguously in `l`. -/
def listContainsSub (l sub : List Char) : Bool :=
  listStartsWith l sub ||
    match l with
    | [] => false
    | _ :: t => listContainsSub t sub

/-- Models `String.prototype.includes`. -/
def strContains (s sub : String) : Bool := listContainsSub s.data sub.data

/-- Models `String(gRaw).replace(/,/g, "")`. -/
def stripCommas (s : String) : String := String.mk (s.data.filter (fun c => c ≠ ','))

/-- Models JavaScript `Number(string)` restricted to finite results: the
string is trimmed; an empty remainder is 0; otherwise an optional sign
followed by decimal digits with an optional fractional part.  `none` models a
non-finite result (NaN, or the `Infinity` literals and exponent/hex forms,
which no theorem below exercises). -/
def jsNumberFinite (s : String) : Option ℚ :=
  let t := jsTrimList s.data
  if t.isEmpty then some 0
  else
    let (sign, rest) : ℚ × List Char :=
      match t with
      | '-' :: r => (-1, r)
      | '+' :: r => (1, r)
      | r => (1, r)
    let intPart := rest.takeWhile isDigitCh
    let rest2 := rest.dropWhile isDigitCh
    match rest2 with
    | [] => if intPart.isEmpty then none else some (sign * digitsVal intPart)
    | '.' :: frac =>
      if frac.all isDigitCh && !(intPart.isEmpty && frac.isEmpty) then
        some (sign * ((digitsVal intPart : ℚ) + (digitsVal frac : ℚ) / (10 ^ frac.length)))
      else none
    | _ => none

/-- The per-row loop body of `csvParse` (`App.tsx:222`): `i` is the 0-based
index over the post-header rows; an invalid date or an invalid (non-finite or
negative) value appends one error message and skips the row, otherwise the row
is appended to the parsed records. -/
def csvRowStep (acc : List DailyPoint × List String) (ir : ℕ × List String) :
    List DailyPoint × List String :=
  let i := ir.1
  let dRaw := ir.2.getD 0 ""
  let gRaw := ir.2.getD 1 ""
  match parseInputDate dRaw with
  | none =>
    (acc.1, acc.2 ++
      ["Row " ++ natStr (i + 1) ++ ": invalid date '" ++ dRaw ++ "' (expected DD-MM-YYYY)"])
  | some date =>
    match jsNumberFinite (stripCommas gRaw) with
    | none =>
      (acc.1, acc.2 ++
        ["Row " ++ natStr (i + 1) ++ ": invalid generation '" ++ gRaw ++
          "' (expected non-negative number)"])
    | some g =>
      if g < 0 then
        (acc.1, acc.2 ++
          ["Row " ++ natStr (i + 1) ++ ": invalid generation '" ++ gRaw ++
            "' (expected non-negative number)"])
      else (acc.1 ++ [⟨date, g⟩], acc.2)

/-- Models `csvParse` (`App.tsx:201`): split into trimmed non-empty lines
(`/\r?\n/` followed by `trim` is the same as splitting on `"\n"` and trimming,
since `trim` also removes a stray `"\r"`), split each line on `","` with
trimmed cells, keep only rows with at least 2 columns, strip a header row
whose first two columns contain `"date"` and `"gen"`/`"gwh"`
case-insensitively, then run the per-row parse loop. -/
def csvParse (text : String) : List DailyPoint × List String :=
  let lines := (((splitOnChar '\n' text.data).map
    (fun l => String.mk (jsTrimList l))).filter (fun l => l ≠ ""))
  let rows := ((lines.map
    (fun l => (splitOnChar ',' l.data).map (fun c => String.mk (jsTrimList c)))).filter
    (fun cols => 2 ≤ cols.length))
  let rows :=
    match rows with
    | [] => ([] : List (List String))
    | r0 :: rest =>
      let h0 := lowerStr (r0.getD 0 "")
      let h1 := lowerStr (r0.getD 1 "")
      if strContains h0 "date" && (strContains h1 "gen" || strContains h1 "gwh") then rest
      else r0 :: rest
  rows.enum.foldl csvRowStep ([], [])

/-- The per-entry step of the hydration initializer of `App` (`App.tsx:322`):
an entry is kept only if its key is a valid ISO date and its value (already
passed through `Number(v)`; `none` models a non-finite result) is finite and
non-negative; anything else is dropped silently. -/
def hydStep (m : List (String × ℚ)) (kv : String × Option ℚ) : List (String × ℚ) :=
  match parseISOKey kv.1, kv.2 with
  | some d, some g => if 0 ≤ g then jsSet m d g else m
  | _, _ => m

/-- Models the hydration initializer of `App` (`App.tsx:322`).  The argument
models the outcome of `localStorage.getItem` + `JSON.parse`: `none` is a
missing or corrupt blob (`JSON.parse` threw, caught by the surrounding
`try`/`catch`, yielding the empty store), and `some entries` is
`Object.entries(obj)`; the entries are folded through `hydStep`. -/
def hydrate (blob : Option (List (String × Option ℚ))) : List (String × ℚ) :=
  match blob with
  | none => []
  | some entries => entries.foldl hydStep []

/-- Models `round2` (`App.tsx:90`) on a finite number:
`Number(n.toFixed(2))`, i.e. rounding to 2 decimal places (the `null` and
non-finite guards of the source are handled at the call sites, where `null`
propagates). -/
def round2 (q : ℚ) : ℚ := (round (q * 100) : ℤ) / 100

/-- Days since 1970-01-01 of a civil date (Howard Hinnant's `days_from_civil`,
the standard algorithm implemented by JS engines' UTC date arithmetic). -/
def daysFromCivil (y m d : ℤ) : ℤ :=
  let y := y - (if m ≤ 2 then 1 else 0)
  let era := Int.ediv y 400
  let yoe := y - era * 400
  let mp := Int.emod (m + 9) 12
  let doy := Int.ediv (153 * mp + 2) 5 + d - 1
  let doe := yoe * 365 + Int.ediv yoe 4 - Int.ediv yoe 100 + doy
  era * 146097 + doe - 719468

/-- Civil date of a days-since-1970 count (Howard Hinnant's
`civil_from_days`). -/
def civilFromDays (z0 : ℤ) : ℤ × ℤ × ℤ :=
  let z := z0 + 719468
  let era := Int.ediv z 146097
  let doe := z - era * 146097
  let yoe := Int.ediv (doe - Int.ediv doe 1460 + Int.ediv doe 36524 - Int.ediv doe 146096) 365
  let y := yoe + era * 400
  let doy := doe - (365 * yoe + Int.ediv yoe 4 - Int.ediv yoe 100)
  let mp := Int.ediv (5 * doy + 2) 153
  let d := doy - Int.ediv (153 * mp + 2) 5 + 1
  let m := mp + (if mp < 10 then 3 else -9)
  (y + (if m ≤ 2 then 1 else 0), m, d)

/-- Epoch-day number of an ISO date string, via its parsed fields; models
`new Date(iso + "T00:00:00Z").getTime() / 86400000` for the valid ISO keys
the engine feeds it. -/
def epochDayOfIso (iso : String) : ℤ :=
  daysFromCivil (yyyyOfIso iso) (mmOfIso iso) (ddOfIso iso)

/-- ISO string of an epoch-day number; models
`d.toISOString().slice(0, 10)` (year zero-padded to 4 digits, month and day
to 2) for the 4-digit-year dates the engine works with. -/
def isoOfEpochDay (z : ℤ) : String :=
  let c := civilFromDays z
  String.mk (pad4Chars c.1.toNat ++ '-' :: pad2Chars c.2.1.toNat ++ '-' :: pad2Chars c.2.2.toNat)

/-- Models `isoPlusDays` (`App.tsx:56`). -/
def isoPlusDays (iso : String) (days : ℤ) : String :=
  isoOfEpochDay (epochDayOfIso iso + days)

/-- Models `isoMinusDays` (`App.tsx:50`). -/
def isoMinusDays (iso : String) (days : ℤ) : String :=
  isoOfEpochDay (epochDayOfIso iso - days)

/-- Fuelled date-range loop: collects `cur` and steps one day while
`cur ≤ t` (the JS loops' string comparison).  The fuel is the exact day count
of the closed range, which bounds the iterations of the source's `while`
loops over canonical ISO dates. -/
def rangeLoop : ℕ → String → String → List String
  | 0, _, _ => []
  | fuel + 1, cur, t => if cur ≤ t then cur :: rangeLoop fuel (isoPlusDays cur 1) t else []

/-- The number of days in the closed range `[f, t]`. -/
def daysSpan (f t : String) : ℕ := (epochDayOfIso t - epochDayOfIso f + 1).toNat

/-- The calendar dates iterated by `while (cur <= t)` starting at `f`. -/
def dateRange (f t : String) : List String := rangeLoop (daysSpan f t) f t

/-- Models `sumRangeInclusive` (`App.tsx:395`): walks the calendar days of
`[startIso, endIso]`, summing the store values of the days present; `null`
when the range is reversed or no day contributes. -/
def sumRangeInclusive (lookup : List (String × ℚ)) (startIso endIso : String) : Option ℚ :=
  if endIso < startIso then none
  else
    let p := (dateRange startIso endIso).foldl
      (fun (p : ℚ × Bool) cur =>
        match jsGet lookup cur with
        | some v => (p.1 + v, true)
        | none => p)
      (0, false)
    if p.2 then some p.1 else none

/-- One output point of `dailyForChart` (`App.tsx:383`). -/
structure ChartPoint where
  label : String
  units : Option ℚ
  prev_year_units : Option ℚ
  yoy_pct : Option ℚ
  mom_pct : Option ℚ
deriving DecidableEq

/-- Models `new Map(sortedDaily.map((d) => [d.date, d.generation_gwh]))`. -/
def buildLookup (sortedDaily : List DailyPoint) : List (String × ℚ) :=
  sortedDaily.foldl (fun m d => jsSet m d.date d.generation_gwh) []

/-- The loop body of the `rolling30` branch of `dailyForChart`
(`App.tsx:426`): the trailing 30-day window sum ending at `cur`, the same
window one `365`-day offset earlier, and the point assembled from them.  Note
`units: round2(currSum ?? 0)` — a `null` window sum is coerced to 0 before
rounding, so `units` is always a number here. -/
def rollingPoint (lookup : List (String × ℚ)) (cur : String) : ChartPoint :=
  let start := isoMinusDays cur 29
  let currSum := sumRangeInclusive lookup start cur
  let curPrevYear := isoMinusDays cur 365
  let startPrevYear := isoMinusDays curPrevYear 29
  let prevSum := sumRangeInclusive lookup startPrevYear curPrevYear
  { label := formatDDMMYYYY cur
    units := some (round2 (currSum.getD 0))
    prev_year_units := prevSum.map round2
    yoy_pct :=
      match currSum, prevSum with
      | some cs, some ps => (growthPct cs (some ps)).map round2
      | _, _ => none
    mom_pct := none }

/-- Models the `rolling30` branch of `dailyForChart` (`App.tsx:426`): orders
the bounds, then emits one `rollingPoint` per calendar day of `[f, t]`
(the source's `while` push-loop, realised as a map over the day range). -/
def rollingForChart (sortedDaily : List DailyPoint) (fromIso toIso : String) :
    List ChartPoint :=
  let f := if fromIso ≤ toIso then fromIso else toIso
  let t := if fromIso ≤ toIso then toIso else fromIso
  let lookup := buildLookup sortedDaily
  (dateRange f t).map (rollingPoint lookup)

/-- Concrete store realising the spec's monthly example: February 2024 has
days 1–10 summing to 40 and days 11–28 summing to 60, March 2024 has
`max_day = 10` and total 50. -/
def exDaily : List DailyPoint :=
  [⟨"2024-02-01", 15⟩, ⟨"2024-02-10", 25⟩, ⟨"2024-02-11", 60⟩,
   ⟨"2024-03-03", 20⟩, ⟨"2024-03-10", 30⟩]

/-- The March 2024 row that `toMonthly exDaily` produces. -/
def exMarch : MonthlyRecord := ⟨"2024-03", 50, 10, none, some 25⟩

/-- A one-point store whose single observation lies far outside the rolling
window queried in the rolling-30 evaluation below. -/
def exStore : List DailyPoint := [⟨"2025-01-01", 5⟩]

/-- A persisted blob holding one valid entry, one entry with an invalid key,
one with a non-finite value, and one with a negative value. -/
def exBlob : List (String × Option ℚ) :=
  [("2025-01-01", some 5), ("bad", some 3), ("2025-01-02", none), ("2025-01-03", some (-2))]

theorem jsGet_jsSet_same {κ α : Type} [DecidableEq κ] (m : List (κ × α)) (k : κ) (v : α) :
    jsGet (jsSet m k v) k = some v := by
  induction m with
  | nil => simp [jsSet, jsGet]
  | cons h t ih =>
    obtain ⟨k', v'⟩ := h
    by_cases hk : k' = k
    · simp [jsSet, hk, jsGet]
    · simp [jsSet, hk, jsGet, ih]

theorem jsGet_jsSet_ne {κ α : Type} [DecidableEq κ] (m : List (κ × α)) (k k' : κ) (v : α)
    (h : k' ≠ k) : jsGet (jsSet m k v) k' = jsGet m k' := by
  have hne : ¬ k = k' := fun hh => h hh.symm
  induction m with
  | nil => simp [jsSet, jsGet, hne]
  | cons p t ih =>
    obtain ⟨k₀, v₀⟩ := p
    by_cases hk : k₀ = k
    · subst hk
      simp [jsSet, jsGet, hne]
    · by_cases hq : k₀ = k'
      · simp [jsSet, jsGet, hk, hq, h]
      · simp [jsSet, jsGet, hk, hq, h, ih]

theorem mem_jsSet {κ α : Type} [DecidableEq κ] (m : List (κ × α)) (k : κ) (v : α)
    (p : κ × α) (hp : p ∈ jsSet m k v) : p = (k, v) ∨ p ∈ m := by
  induction m with
  | nil => simpa [jsSet] using hp
  | cons q t ih =>
    by_cases hk : q.1 = k
    · obtain ⟨q1, q2⟩ := q
      simp only [jsSet, if_pos hk] at hp
      rcases List.mem_cons.1 hp with h | h
      · exact Or.inl h
      · exact Or.inr (List.mem_cons_of_mem _ h)
    · obtain ⟨q1, q2⟩ := q
      simp only [jsSet, if_neg hk] at hp
      rcases List.mem_cons.1 hp with h | h
      · exact Or.inr (h ▸ List.mem_cons_self _ _)
      · rcases ih h with h' | h'
        · exact Or.inl h'
        · exact Or.inr (List.mem_cons_of_mem _ h')

theorem jsGet_jsSet_isSome {κ α : Type} [DecidableEq κ] (m : List (κ × α)) (k j : κ) (v : α)
    (h : (jsGet m j).isSome) : (jsGet (jsSet m k v) j).isSome := by
  by_cases hk : j = k
  · subst hk
    simp [jsGet_jsSet_same]
  · rwa [jsGet_jsSet_ne m k j v hk]

theorem mem_keys_isSome {κ α : Type} [DecidableEq κ] (l : List (κ × α)) (k : κ)
    (h : k ∈ l.map Prod.fst) : (jsGet l k).isSome := by
  induction l with
  | nil => simp at h
  | cons p t ih =>
    obtain ⟨p1, p2⟩ := p
    by_cases hk : p1 = k
    · simp [jsGet, hk]
    · simp only [List.map_cons, List.mem_cons] at h
      rcases h with h | h
      · exact absurd h.symm hk
      · simpa [jsGet, hk] using ih h

theorem mem_insertSorted (x a : String) (l : List String) :
    a ∈ insertSorted x l ↔ a = x ∨ a ∈ l := by
  induction l with
  | nil => simp [insertSorted]
  | cons y t ih =>
    by_cases hxy : x ≤ y
    · simp [insertSorted, hxy]
    · simp only [insertSorted, if_neg hxy, List.mem_cons, ih]
      tauto

theorem mem_sortStrs (a : String) (l : List String) : a ∈ sortStrs l ↔ a ∈ l := by
  induction l with
  | nil => simp [sortStrs]
  | cons y t ih =>
    simp only [sortStrs, List.foldr_cons] at *
    rw [mem_insertSorted, ih, List.mem_cons]

/-- C3: for every finite `curr` and every `prev`, `growthPct` returns `null`
exactly when `prev` is zero or absent, and otherwise the exact value
`(curr - prev) / prev * 100`; no division by zero is ever performed (and, in
this exact-arithmetic model, no infinity can arise). -/
theorem growthPct_eq_spec (curr : ℚ) (prev : Option ℚ) :
    growthPct curr prev = growthPctSpec curr prev := by
  cases prev with
  | none => rfl
  | some p =>
    by_cases hp : p = 0
    · simp [growthPct, growthPctSpec, safeDiv, hp]
    · simp [growthPct, growthPctSpec, safeDiv, hp]

/-- C6: merging maps each date of the batch to the value of the batch's last
record for that date, and leaves every other key's lookup unchanged (in
particular no entry is ever removed); the result is a fresh structure, the
prior store value being untouched by construction in this pure model. -/
theorem mergeRecords_last_write_wins (m : List (String × ℚ)) (rs : List DailyPoint)
    (k : String) :
    jsGet (mergeRecords m rs) k =
      match lastAssoc rs k with
      | some v => some v
      | none => jsGet m k := by
  induction rs using List.reverseRecOn with
  | nil => simp [mergeRecords, lastAssoc]
  | append_singleton t r ih =>
    have hm : mergeRecords m (t ++ [r]) = jsSet (mergeRecords m t) r.date r.generation_gwh := by
      simp [mergeRecords, List.foldl_append]
    have hl : lastAssoc (t ++ [r]) k =
        if r.date = k then some r.generation_gwh else lastAssoc t k := by
      simp [lastAssoc, List.foldl_append]
    rw [hm, hl]
    by_cases hd : r.date = k
    · subst hd
      simp [jsGet_jsSet_same]
    · rw [jsGet_jsSet_ne _ _ _ _ (fun hh => hd hh.symm), ih]
      simp [hd]

/-- C5: on the spec's example CSV text the parser returns exactly the two
valid records and exactly one error, which references row 2 (1-based over the
post-header rows) with the invalid-date message; and a retained-row text with
a one-column line shows that short rows are dropped silently while parsing
continues. -/
theorem csvParse_best_effort :
    csvParse "date,generation_gwh\n18-12-2025,4140\nxx,abc\n19-12-2025,4215" =
      ([⟨"2025-12-18", 4140⟩, ⟨"2025-12-19", 4215⟩],
       ["Row 2: invalid date 'xx' (expected DD-MM-YYYY)"]) ∧
    csvParse "date,gen\njunk\n18-12-2025,4140" = ([⟨"2025-12-18", 4140⟩], []) :=
  ⟨by decide!, by decide!⟩

/-- C10: a row with a valid date and an empty value column is retained, the
empty string coercing to the number 0, so the parse yields one record with
value 0 and no error. -/
theorem csvParse_empty_value_is_zero :
    csvParse "18-12-2025," = ([⟨"2025-12-18", 0⟩], []) :=
  by decide!

/-- C8 (divergence witness): on the line `18-12-2025,4,140` the `split(",")`
happens before the comma-stripping `replace`, so the parsed value is the
second column `4`, not 4140, and no error is reported. -/
theorem csvParse_thousands_separator_truncates :
    csvParse "18-12-2025,4,140" = ([⟨"2025-12-18", 4⟩], []) :=
  by decide!

/-- C2 (divergence witness): with a store whose only observation lies outside
the queried window, the rolling-30 window `[d-29, d]` has zero contributing
days (`sumRangeInclusive` is `null`), yet the emitted point carries
`units = 0` — `round2(currSum ?? 0)` reports the null sum as 0. -/
theorem rolling_empty_window_units_zero :
    rollingForChart exStore "2025-06-01" "2025-06-01" =
      [⟨"01-06-2025", some 0, none, none, none⟩] ∧
    sumRangeInclusive (buildLookup exStore) (isoMinusDays "2025-06-01" 29) "2025-06-01" =
      none :=
  ⟨by decide!, by decide!⟩

theorem parseISOKey_self (s r : String) (h : parseISOKey s = some r) : r = s := by
  unfold parseISOKey at h
  split at h
  · split at h
    · split at h
      · exact (Option.some.inj h).symm
      · exact absurd h (by simp)
    · exact absurd h (by simp)
  · exact absurd h (by simp)

theorem hydStep_sound (m : List (String × ℚ)) (kv : String × Option ℚ)
    (hm : ∀ p ∈ m, (parseISOKey p.1).isSome ∧ 0 ≤ p.2) :
    ∀ p ∈ hydStep m kv, (parseISOKey p.1).isSome ∧ 0 ≤ p.2 := by
  intro p hp
  unfold hydStep at hp
  split at hp
  case _ d g hd hg =>
    split at hp
    case isTrue hpos =>
      rcases mem_jsSet _ _ _ _ hp with h | h
      · subst h
        refine ⟨?_, hpos⟩
        have hds : d = kv.1 := parseISOKey_self _ _ hd
        rw [hds] at hd ⊢
        simp [hd]
      · exact hm _ h
    case isFalse _ => exact hm _ hp
  case _ => exact hm _ hp

theorem foldl_hydStep_sound (entries : List (String × Option ℚ)) :
    ∀ acc, (∀ p ∈ acc, (parseISOKey p.1).isSome ∧ 0 ≤ p.2) →
      ∀ p ∈ entries.foldl hydStep acc, (parseISOKey p.1).isSome ∧ 0 ≤ p.2 := by
  induction entries with
  | nil => intro acc hacc; simpa using hacc
  | cons e t ih =>
    intro acc hacc
    simpa using ih (hydStep acc e) (hydStep_sound acc e hacc)

theorem jsGet_hydStep_isSome (m : List (String × ℚ)) (kv : String × Option ℚ) (j : String)
    (h : (jsGet m j).isSome) : (jsGet (hydStep m kv) j).isSome := by
  unfold hydStep
  split
  · split
    · exact jsGet_jsSet_isSome _ _ _ _ h
    · exact h
  · exact h

theorem foldl_hydStep_present (entries : List (String × Option ℚ)) :
    ∀ acc (k : String) (g : ℚ),
      (((k, some g) ∈ entries ∧ parseISOKey k = some k ∧ 0 ≤ g) ∨ (jsGet acc k).isSome) →
      (jsGet (entries.foldl hydStep acc) k).isSome := by
  induction entries with
  | nil =>
    intro acc k g h
    rcases h with ⟨hmem, _⟩ | h
    · simp at hmem
    · simpa using h
  | cons e t ih =>
    intro acc k g h
    rw [List.foldl_cons]
    rcases h with ⟨hmem, hk, hg⟩ | h
    · rcases List.mem_cons.1 hmem with he | hmem'
      · refine ih (hydStep acc e) k g (Or.inr ?_)
        rw [← he]
        simp [hydStep, hk, hg, jsGet_jsSet_same]
      · exact ih (hydStep acc e) k g (Or.inl ⟨hmem', hk, hg⟩)
    · exact ih (hydStep acc e) k g (Or.inr (jsGet_hydStep_isSome acc e k h))

/-- C7: hydration validates every entry — the store built from a blob contains
only entries whose key is a valid ISO date and whose value is finite (by type)
and non-negative, invalid entries being dropped silently; every valid entry's
key is present; and a corrupt blob yields the empty store. -/
theorem hydrate_validates :
    hydrate none = [] ∧
    (∀ entries p, p ∈ hydrate (some entries) → (parseISOKey p.1).isSome ∧ 0 ≤ p.2) ∧
    (∀ entries (k : String) (g : ℚ), (k, some g) ∈ entries → parseISOKey k = some k →
      0 ≤ g → (jsGet (hydrate (some entries)) k).isSome) := by
  refine ⟨rfl, ?_, ?_⟩
  · intro entries p hp
    exact foldl_hydStep_sound entries [] (by simp) p hp
  · intro entries k g hmem hk hg
    exact foldl_hydStep_present entries [] k g (Or.inl ⟨hmem, hk, hg⟩)

/-- Witness for C7 at the concrete blob `exBlob`. -/
theorem hydrate_validates_witness :
    ((parseISOKey "2025-01-01").isSome ∧ (0 : ℚ) ≤ 5) ∧
    (jsGet (hydrate (some exBlob)) "2025-01-01").isSome ∧
    hydrate (some exBlob) = [("2025-01-01", 5)] :=
  ⟨hydrate_validates.2.1 exBlob ("2025-01-01", 5) (by decide!),
   hydrate_validates.2.2 exBlob "2025-01-01" 5 (by decide!) (by decide!) (by decide!),
   by decide!⟩

theorem monthPts_append (daily : List DailyPoint) (p : DailyPoint) (ym : String) :
    monthPts (daily ++ [p]) ym =
      monthPts daily ym ++ (if monthKey p.date = ym then [p] else []) := by
  by_cases hmk : monthKey p.date = ym
  · simp [monthPts, List.filter_append, hmk]
  · simp [monthPts, List.filter_append, hmk]

theorem buildMonthDayMap_char (daily : List DailyPoint) (ym : String) :
    (jsGet (buildMonthDayMap daily) ym = none → monthPts daily ym = []) ∧
    (∀ rec, jsGet (buildMonthDayMap daily) ym = some rec →
      rec.total = monthTotal daily ym ∧ rec.maxDay = monthMaxDay daily ym ∧
      ∀ day, jsGet rec.byDay day = daySum daily ym day) := by
  induction daily using List.reverseRecOn with
  | nil =>
    constructor
    · intro _; rfl
    · intro rec h; simp [buildMonthDayMap, jsGet] at h
  | append_singleton l p ih =>
    have hb : buildMonthDayMap (l ++ [p]) = bmStep (buildMonthDayMap l) p := by
      simp [buildMonthDayMap, List.foldl_append]
    by_cases hmk : monthKey p.date = ym
    · -- the appended point falls in month ym
      have hrec0 : ((jsGet (buildMonthDayMap l) (monthKey p.date)).getD ⟨0, 0, []⟩).total =
            monthTotal l ym ∧
          ((jsGet (buildMonthDayMap l) (monthKey p.date)).getD ⟨0, 0, []⟩).maxDay =
            monthMaxDay l ym ∧
          ∀ day, jsGet ((jsGet (buildMonthDayMap l) (monthKey p.date)).getD ⟨0, 0, []⟩).byDay day =
            daySum l ym day := by
        rw [hmk]
        cases hget : jsGet (buildMonthDayMap l) ym with
        | some r => simpa using ih.2 r hget
        | none =>
          have hemp := ih.1 hget
          refine ⟨by simp [monthTotal, hemp], by simp [monthMaxDay, hemp], fun day => ?_⟩
          simp [jsGet, daySum, dayPts, hemp]
      obtain ⟨h0t, h0m, h0b⟩ := hrec0
      have happ : jsGet (buildMonthDayMap (l ++ [p])) ym =
          some ⟨((jsGet (buildMonthDayMap l) (monthKey p.date)).getD ⟨0, 0, []⟩).total +
                  p.generation_gwh,
                max ((jsGet (buildMonthDayMap l) (monthKey p.date)).getD ⟨0, 0, []⟩).maxDay
                  (dayOfIso p.date),
                jsSet ((jsGet (buildMonthDayMap l) (monthKey p.date)).getD ⟨0, 0, []⟩).byDay
                  (dayOfIso p.date)
                  ((jsGet ((jsGet (buildMonthDayMap l) (monthKey p.date)).getD ⟨0, 0, []⟩).byDay
                      (dayOfIso p.date)).getD 0 + p.generation_gwh)⟩ := by
        rw [hb]
        simp only [bmStep]
        rw [← hmk]
        exact jsGet_jsSet_same _ _ _
      have hmt : monthTotal (l ++ [p]) ym = monthTotal l ym + p.generation_gwh := by
        simp [monthTotal, monthPts_append, hmk]
      have hmm : monthMaxDay (l ++ [p]) ym = max (monthMaxDay l ym) (dayOfIso p.date) := by
        simp [monthMaxDay, monthPts_append, hmk, List.foldl_append]
      have hdss : daySum (l ++ [p]) ym (dayOfIso p.date) =
          some ((daySum l ym (dayOfIso p.date)).getD 0 + p.generation_gwh) := by
        have hdp : dayPts (l ++ [p]) ym (dayOfIso p.date) =
            dayPts l ym (dayOfIso p.date) ++ [p] := by
          simp [dayPts, monthPts_append, hmk, List.filter_append]
        cases hE : dayPts l ym (dayOfIso p.date) with
        | nil => simp [daySum, hdp, hE]
        | cons q t =>
          simp [daySum, hdp, hE, List.sum_append]
          ring
      have hdso : ∀ day, day ≠ dayOfIso p.date →
          daySum (l ++ [p]) ym day = daySum l ym day := by
        intro day hd
        have hne : ¬ (dayOfIso p.date = day) := fun hh => hd hh.symm
        have hdp : dayPts (l ++ [p]) ym day = dayPts l ym day := by
          simp [dayPts, monthPts_append, hmk, List.filter_append, hne]
        simp [daySum, hdp]
      constructor
      · intro h
        rw [happ] at h
        exact absurd h (by simp)
      · intro rec h
        rw [happ] at h
        have hre := (Option.some.inj h).symm
        subst hre
        refine ⟨?_, ?_, ?_⟩
        · dsimp only
          rw [hmt, h0t]
        · dsimp only
          rw [hmm, h0m]
        · intro day
          dsimp only
          by_cases hd : day = dayOfIso p.date
          · subst hd
            rw [jsGet_jsSet_same, hdss, h0b]
          · rw [jsGet_jsSet_ne _ _ _ _ hd, hdso day hd, h0b]
    · -- the appended point falls in some other month
      have hmp : monthPts (l ++ [p]) ym = monthPts l ym := by
        simp [monthPts_append, hmk]
      have hmt : monthTotal (l ++ [p]) ym = monthTotal l ym := by
        simp [monthTotal, hmp]
      have hmm : monthMaxDay (l ++ [p]) ym = monthMaxDay l ym := by
        simp [monthMaxDay, hmp]
      have hds : ∀ day, daySum (l ++ [p]) ym day = daySum l ym day := by
        intro day
        simp [daySum, dayPts, hmp]
      have hget : jsGet (buildMonthDayMap (l ++ [p])) ym = jsGet (buildMonthDayMap l) ym := by
        rw [hb]
        simp only [bmStep]
        exact jsGet_jsSet_ne _ _ _ _ (fun hh => hmk hh.symm)
      constructor
      · intro h
        rw [hget] at h
        rw [hmp]
        exact ih.1 h
      · intro rec h
        rw [hget] at h
        obtain ⟨h1, h2, h3⟩ := ih.2 rec h
        exact ⟨by rw [hmt]; exact h1, by rw [hmm]; exact h2,
          fun day => by rw [hds day]; exact h3 day⟩

theorem filter_day_split (l : List DailyPoint) (k : ℕ) :
    (((l.filter (fun d => decide (1 ≤ dayOfIso d.date) &&
          decide (dayOfIso d.date ≤ k + 1))).map (·.generation_gwh)).sum =
        ((l.filter (fun d => decide (1 ≤ dayOfIso d.date) &&
          decide (dayOfIso d.date ≤ k))).map (·.generation_gwh)).sum +
        ((l.filter (fun d => dayOfIso d.date == k + 1)).map (·.generation_gwh)).sum) ∧
    ((l.filter (fun d => decide (1 ≤ dayOfIso d.date) &&
          decide (dayOfIso d.date ≤ k + 1))).isEmpty =
        ((l.filter (fun d => decide (1 ≤ dayOfIso d.date) &&
          decide (dayOfIso d.date ≤ k))).isEmpty &&
        (l.filter (fun d => dayOfIso d.date == k + 1)).isEmpty)) := by
  induction l with
  | nil => simp
  | cons q t ih =>
    obtain ⟨ih1, ih2⟩ := ih
    by_cases hA : 1 ≤ dayOfIso q.date ∧ dayOfIso q.date ≤ k
    · have e1 : (decide (1 ≤ dayOfIso q.date) && decide (dayOfIso q.date ≤ k + 1)) = true := by
        rw [← Bool.decide_and]
        exact decide_eq_true (by omega)
      have e2 : (decide (1 ≤ dayOfIso q.date) && decide (dayOfIso q.date ≤ k)) = true := by
        rw [← Bool.decide_and]
        exact decide_eq_true (by omega)
      have e3 : (dayOfIso q.date == k + 1) = false := by
        rw [Bool.eq_false_iff]
        simp only [ne_eq, beq_iff_eq]
        omega
      constructor
      · simp only [List.filter_cons, e1, e2, e3, Bool.false_eq_true, eq_self_iff_true,
          if_true, if_false, List.map_cons, List.sum_cons, ih1]
        ring
      · simp only [List.filter_cons, e1, e2, e3, Bool.false_eq_true, eq_self_iff_true,
          if_true, if_false, List.isEmpty_cons, ih2]
        simp
    · by_cases hB : dayOfIso q.date = k + 1
      · have e1 : (decide (1 ≤ dayOfIso q.date) && decide (dayOfIso q.date ≤ k + 1)) = true := by
          rw [← Bool.decide_and]
          exact decide_eq_true (by omega)
        have e2 : (decide (1 ≤ dayOfIso q.date) && decide (dayOfIso q.date ≤ k)) = false := by
          rw [← Bool.decide_and]
          exact decide_eq_false (by omega)
        have e3 : (dayOfIso q.date == k + 1) = true := by
          simp only [beq_iff_eq]
          omega
        constructor
        · simp only [List.filter_cons, e1, e2, e3, Bool.false_eq_true, eq_self_iff_true,
            if_true, if_false, List.map_cons, List.sum_cons, ih1]
          ring
        · simp only [List.filter_cons, e1, e2, e3, Bool.false_eq_true, eq_self_iff_true,
          if_true, if_false, List.isEmpty_cons, ih2]
          simp
      · have e1 : (decide (1 ≤ dayOfIso q.date) && decide (dayOfIso q.date ≤ k + 1)) = false := by
          rw [← Bool.decide_and]
          exact decide_eq_false (by omega)
        have e2 : (decide (1 ≤ dayOfIso q.date) && decide (dayOfIso q.date ≤ k)) = false := by
          rw [← Bool.decide_and]
          exact decide_eq_false (by omega)
        have e3 : (dayOfIso q.date == k + 1) = false := by
          rw [Bool.eq_false_iff]
          simp only [ne_eq, beq_iff_eq]
          omega
        exact ⟨by simp only [List.filter_cons, e1, e2, e3, Bool.false_eq_true, if_false, ih1],
          by simp only [List.filter_cons, e1, e2, e3, Bool.false_eq_true, if_false, ih2]⟩

theorem restrictedSum_eq (daily : List DailyPoint) (ym : String) (k : ℕ) :
    restrictedSum daily ym k =
      if ((monthPts daily ym).filter (fun d => decide (1 ≤ dayOfIso d.date) &&
          decide (dayOfIso d.date ≤ k))).isEmpty then none
      else some ((((monthPts daily ym).filter (fun d => decide (1 ≤ dayOfIso d.date) &&
          decide (dayOfIso d.date ≤ k))).map (·.generation_gwh)).sum) := rfl

theorem daySum_eq (daily : List DailyPoint) (ym : String) (day : ℕ) :
    daySum daily ym day =
      if ((monthPts daily ym).filter (fun d => dayOfIso d.date == day)).isEmpty then none
      else some ((((monthPts daily ym).filter (fun d => dayOfIso d.date == day)).map
        (·.generation_gwh)).sum) := rfl

theorem restrictedSum_zero (daily : List DailyPoint) (ym : String) :
    restrictedSum daily ym 0 = none := by
  have hf : (monthPts daily ym).filter
      (fun d => decide (1 ≤ dayOfIso d.date) && decide (dayOfIso d.date ≤ 0)) = [] := by
    refine List.filter_eq_nil_iff.2 (fun a _ => ?_)
    rw [← Bool.decide_and]
    simp only [decide_eq_true_eq]
    omega
  rw [restrictedSum_eq, hf]
  rfl

theorem restrictedSum_succ (daily : List DailyPoint) (ym : String) (k : ℕ) :
    restrictedSum daily ym (k + 1) =
      match restrictedSum daily ym k, daySum daily ym (k + 1) with
      | none, none => none
      | none, some v => some v
      | some s, none => some s
      | some s, some v => some (s + v) := by
  obtain ⟨hsum, hemp⟩ := filter_day_split (monthPts daily ym) k
  rw [restrictedSum_eq daily ym (k + 1), restrictedSum_eq daily ym k, daySum_eq daily ym (k + 1),
    hemp, hsum]
  cases hA : ((monthPts daily ym).filter (fun d => decide (1 ≤ dayOfIso d.date) &&
      decide (dayOfIso d.date ≤ k))).isEmpty with
  | false =>
    cases hB : ((monthPts daily ym).filter (fun d => dayOfIso d.date == k + 1)).isEmpty with
    | false => simp
    | true =>
      have h3 : (monthPts daily ym).filter (fun d => dayOfIso d.date == k + 1) = [] :=
        List.isEmpty_iff.1 hB
      simp [h3]
  | true =>
    have h2 : (monthPts daily ym).filter (fun d => decide (1 ≤ dayOfIso d.date) &&
        decide (dayOfIso d.date ≤ k)) = [] := List.isEmpty_iff.1 hA
    cases hB : ((monthPts daily ym).filter (fun d => dayOfIso d.date == k + 1)).isEmpty with
    | false => simp [h2]
    | true =>
      have h3 : (monthPts daily ym).filter (fun d => dayOfIso d.date == k + 1) = [] :=
        List.isEmpty_iff.1 hB
      simp [h2, h3]

theorem sumDayStep_apply (byDay : List (ℕ × ℚ)) (p : ℚ × Bool) (i : ℕ) :
    sumDayStep byDay p i =
      match jsGet byDay (i + 1) with
      | some v => (p.1 + v, true)
      | none => p := rfl

theorem sumFold_char (byDay : List (ℕ × ℚ)) (daily : List DailyPoint) (ym : String)
    (hb : ∀ day, jsGet byDay day = daySum daily ym day) (k : ℕ) :
    ((List.range k).foldl (sumDayStep byDay) (0, false)).1 = (restrictedSum daily ym k).getD 0 ∧
    ((List.range k).foldl (sumDayStep byDay) (0, false)).2 = (restrictedSum daily ym k).isSome := by
  induction k with
  | zero => simp [restrictedSum_zero daily ym]
  | succ k ih =>
    obtain ⟨ih1, ih2⟩ := ih
    rw [List.range_succ, List.foldl_append, List.foldl_cons, List.foldl_nil,
      restrictedSum_succ daily ym k, sumDayStep_apply, hb (k + 1)]
    cases hd : daySum daily ym (k + 1) with
    | none =>
      cases hr : restrictedSum daily ym k with
      | none =>
        rw [hr] at ih1 ih2
        exact ⟨ih1, ih2⟩
      | some s =>
        rw [hr] at ih1 ih2
        exact ⟨ih1, ih2⟩
    | some v =>
      cases hr : restrictedSum daily ym k with
      | none =>
        rw [hr] at ih1 ih2
        simp only [Option.getD_none] at ih1
        simp [ih1]
      | some s =>
        rw [hr] at ih1 ih2
        simp only [Option.getD_some] at ih1
        simp [ih1]

theorem sumUpTo_eq_restricted (daily : List DailyPoint) (ym : String) (k : ℕ) :
    sumMonthUpToDay (jsGet (buildMonthDayMap daily) ym) k = restrictedSum daily ym k := by
  cases hget : jsGet (buildMonthDayMap daily) ym with
  | none =>
    have hemp := (buildMonthDayMap_char daily ym).1 hget
    have hf : (monthPts daily ym).filter
        (fun d => decide (1 ≤ dayOfIso d.date) && decide (dayOfIso d.date ≤ k)) = [] := by
      rw [hemp]
      rfl
    simp [sumMonthUpToDay, restrictedSum, hf]
  | some rec =>
    obtain ⟨-, -, hbd⟩ := (buildMonthDayMap_char daily ym).2 rec hget
    obtain ⟨h1, h2⟩ := sumFold_char rec.byDay daily ym hbd k
    simp only [sumMonthUpToDay]
    rw [h2, h1]
    cases hr : restrictedSum daily ym k <;> simp

/-- C1: every row of the monthly rollup carries the month's full total and its
highest observed day, and its `mom_pct`/`yoy_pct` equal `growthPct` of that
total against the previous calendar month's (resp. the same month one year
earlier's) values restricted to days `1..max_day`, each being null exactly
when the compared month has no observation on any day in that range. -/
theorem toMonthly_month_to_date_comparable (daily : List DailyPoint) (r : MonthlyRecord)
    (hr : r ∈ toMonthly daily) :
    r.total_gwh = monthTotal daily r.month ∧
    r.max_day = monthMaxDay daily r.month ∧
    r.mom_pct = specComparableGrowth daily (addMonths r.month (-1)) r.max_day r.total_gwh ∧
    r.yoy_pct = specComparableGrowth daily (prevYearKey r.month) r.max_day r.total_gwh := by
  unfold toMonthly at hr
  obtain ⟨m, hm, rfl⟩ := List.mem_map.1 hr
  have hmem : m ∈ (buildMonthDayMap daily).map Prod.fst := (mem_sortStrs m _).1 hm
  have hsome : (jsGet (buildMonthDayMap daily) m).isSome := mem_keys_isSome _ _ hmem
  obtain ⟨rec, hrec⟩ := Option.isSome_iff_exists.1 hsome
  have hrow : monthRow (buildMonthDayMap daily) m =
      ⟨m, rec.total, rec.maxDay,
        match sumMonthUpToDay (jsGet (buildMonthDayMap daily) (prevYearKey m)) rec.maxDay with
        | some p => growthPct rec.total (some p)
        | none => none,
        match sumMonthUpToDay (jsGet (buildMonthDayMap daily) (addMonths m (-1))) rec.maxDay with
        | some p => growthPct rec.total (some p)
        | none => none⟩ := by
    simp only [monthRow, hrec, Option.getD_some]
  rw [hrow]
  obtain ⟨ht, hmx, -⟩ := (buildMonthDayMap_char daily m).2 rec hrec
  refine ⟨ht, hmx, ?_, ?_⟩
  · show (match sumMonthUpToDay (jsGet (buildMonthDayMap daily) (addMonths m (-1))) rec.maxDay with
      | some p => growthPct rec.total (some p)
      | none => none) = _
    rw [sumUpTo_eq_restricted daily (addMonths m (-1)) rec.maxDay]
    rfl
  · show (match sumMonthUpToDay (jsGet (buildMonthDayMap daily) (prevYearKey m)) rec.maxDay with
      | some p => growthPct rec.total (some p)
      | none => none) = _
    rw [sumUpTo_eq_restricted daily (prevYearKey m) rec.maxDay]
    rfl

/-- Witness for C1 at the spec's example: the March 2024 row of `exDaily` has
`max_day = 10`, total 50, and `mom_pct = growthPct(50, 40) = 25` — computed
against days 1–10 of February 2024 (sum 40), not February's full total 100. -/
theorem toMonthly_month_to_date_comparable_witness :
    exMarch ∈ toMonthly exDaily ∧
    exMarch.mom_pct =
      specComparableGrowth exDaily (addMonths exMarch.month (-1)) exMarch.max_day
        exMarch.total_gwh ∧
    exMarch.mom_pct = some 25 ∧
    exMarch.mom_pct ≠ growthPct 50 (some 100) :=
  ⟨by decide!,
   (toMonthly_month_to_date_comparable exDaily exMarch (by decide!)).2.2.1,
   by decide!,
   by decide!⟩

theorem isDigitCh_toNat {c : Char} (h : isDigitCh c = true) : 48 ≤ c.toNat ∧ c.toNat ≤ 57 := by
  simpa [isDigitCh, Bool.and_eq_true, decide_eq_true_eq] using h

theorem digitChar_charVal {c : Char} (h : isDigitCh c = true) : digitChar (charVal c) = c := by
  obtain ⟨h1, -⟩ := isDigitCh_toNat h
  unfold digitChar charVal
  rw [Nat.add_sub_cancel' h1]
  exact Char.ofNat_toNat c

theorem charVal_le9 {c : Char} (h : isDigitCh c = true) : charVal c ≤ 9 := by
  obtain ⟨h1, h2⟩ := isDigitCh_toNat h
  unfold charVal
  omega

theorem decCharsAux_fuel (n : ℕ) : ∀ f g, n < f → n < g → decCharsAux f n = decCharsAux g n := by
  induction n using Nat.strong_induction_on with
  | _ n ih =>
    intro f g hf hg
    cases f with
    | zero => omega
    | succ f' =>
      cases g with
      | zero => omega
      | succ g' =>
        simp only [decCharsAux]
        by_cases h10 : n < 10
        · simp [h10]
        · have hdiv : n / 10 < n := Nat.div_lt_self (by omega) (by omega)
          simp only [if_neg h10]
          rw [ih (n / 10) hdiv f' g' (by omega) (by omega)]

theorem decChars_small {n : ℕ} (h : n < 10) : decChars n = [digitChar n] := by
  simp [decChars, decCharsAux, h]

theorem decChars_step {a b : ℕ} (ha : 0 < a) (hb : b < 10) :
    decChars (10 * a + b) = decChars a ++ [digitChar b] := by
  have h10 : ¬ (10 * a + b < 10) := by omega
  have hd : (10 * a + b) / 10 = a := by omega
  have hm : (10 * a + b) % 10 = b := by omega
  unfold decChars
  conv_lhs => rw [decCharsAux]
  rw [if_neg h10, hd, hm]
  rw [decCharsAux_fuel a (10 * a + b) (a + 1) (by omega) (by omega)]

theorem decChars_num4 {e f g k : Char} (he : isDigitCh e = true) (hf : isDigitCh f = true)
    (hg : isDigitCh g = true) (hk : isDigitCh k = true) (hy : 1000 ≤ num4 e f g k) :
    decChars (num4 e f g k) = [e, f, g, k] := by
  have ce := charVal_le9 he
  have cf := charVal_le9 hf
  have cg := charVal_le9 hg
  have ck := charVal_le9 hk
  have hy' : 1000 ≤ 10 * (10 * (10 * charVal e + charVal f) + charVal g) + charVal k := hy
  have h3 : 0 < 10 * (10 * charVal e + charVal f) + charVal g := by omega
  have h2 : 0 < 10 * charVal e + charVal f := by omega
  have h1 : 0 < charVal e := by omega
  show decChars (10 * (10 * (10 * charVal e + charVal f) + charVal g) + charVal k) = _
  rw [decChars_step h3 (by omega), decChars_step h2 (by omega), decChars_step h1 (by omega),
    decChars_small (by omega), digitChar_charVal he, digitChar_charVal hf,
    digitChar_charVal hg, digitChar_charVal hk]
  rfl

theorem pad2Chars_num2 {c d : Char} (hc : isDigitCh c = true) (hd : isDigitCh d = true) :
    pad2Chars (num2 c d) = [c, d] := by
  have cc := charVal_le9 hc
  have cd := charVal_le9 hd
  by_cases h10 : num2 c d < 10
  · have hc0 : charVal c = 0 := by
      simp only [num2] at h10
      omega
    have hch : c = '0' := by
      have h := digitChar_charVal hc
      rw [hc0] at h
      rw [← h]
      rfl
    have hn : num2 c d = charVal d := by
      simp [num2, hc0]
    unfold pad2Chars
    rw [if_pos h10, hn, decChars_small (by omega), digitChar_charVal hd, hch]
  · have h1 : 0 < charVal c := by
      simp only [num2] at h10
      omega
    unfold pad2Chars
    rw [if_neg h10]
    show decChars (10 * charVal c + charVal d) = _
    rw [decChars_step h1 (by omega), decChars_small (by omega), digitChar_charVal hc,
      digitChar_charVal hd]
    rfl

theorem ddmmyyyyShape_chars (t : String) (h : ddmmyyyyShape t = true) :
    ∃ a b c d e f g k, t.data = [a, b, '-', c, d, '-', e, f, g, k] ∧
      isDigitCh a = true ∧ isDigitCh b = true ∧ isDigitCh c = true ∧ isDigitCh d = true ∧
      isDigitCh e = true ∧ isDigitCh f = true ∧ isDigitCh g = true ∧ isDigitCh k = true := by
  unfold ddmmyyyyShape at h
  split at h
  next a b h1 c d h2 e f g k heq =>
    simp only [Bool.and_eq_true, and_assoc, beq_iff_eq] at h
    obtain ⟨ha, hb, hh1, hc, hd, hh2, he, hf, hg, hk⟩ := h
    exact ⟨a, b, c, d, e, f, g, k, by rw [heq, hh1, hh2], ha, hb, hc, hd, he, hf, hg, hk⟩
  next => exact absurd h (by simp)

theorem parseISOKey_shape (t : String) (h : (parseISOKey t).isSome = true) :
    yyyymmddShape t = true ∧
    realGregorian (yyyyOfIso t) (mmOfIso t) (ddOfIso t) = true := by
  unfold parseISOKey at h
  split at h
  next a b c d h1 e f h2 g k heq =>
    split at h
    next hcond =>
      split at h
      next hvalid =>
        constructor
        · simp only [yyyymmddShape, heq]
          exact hcond
        · have hy : yyyyOfIso t = num4 a b c d := by simp [yyyyOfIso, heq]
          have hm : mmOfIso t = num2 e f := by simp [mmOfIso, heq]
          have hd : ddOfIso t = num2 g k := by simp [ddOfIso, heq]
          rw [hy, hm, hd]
          exact hvalid
      next => exact absurd h (by simp)
    next => exact absurd h (by simp)
  next => exact absurd h (by simp)

/-- C4 counterexample: flexible parsing also accepts the ISO form, so success
does not imply a `DD-MM-YYYY` match — `"2024-02-29"` parses although it does
not match the display pattern. -/
theorem parseFlexible_iso_counterexample :
    parseInputDate "2024-02-29" = some "2024-02-29" ∧
    ddmmyyyyShape "2024-02-29" = false :=
  ⟨by decide!, by decide!⟩

/-- C4 (amended): parsing succeeds only if the trimmed input matches
`DD-MM-YYYY` or ISO `YYYY-MM-DD` and its fields name a real Gregorian
calendar date; the calendar-impossible `"31-02-2024"` and `"29-02-2023"`
fail, while `"29-02-2024"` (leap year) succeeds and returns the canonical
ISO string. -/
theorem parseFlexible_only_real_dates :
    (∀ s : String, (parseInputDate s).isSome = true →
      (ddmmyyyyShape (jsTrim s) = true ∧
        realGregorian (yyyyOfDisplay (jsTrim s)) (mmOfDisplay (jsTrim s))
          (ddOfDisplay (jsTrim s)) = true) ∨
      (yyyymmddShape (jsTrim s) = true ∧
        realGregorian (yyyyOfIso (jsTrim s)) (mmOfIso (jsTrim s))
          (ddOfIso (jsTrim s)) = true)) ∧
    parseInputDate "31-02-2024" = none ∧
    parseInputDate "29-02-2023" = none ∧
    parseInputDate "29-02-2024" = some "2024-02-29" := by
  refine ⟨?_, by decide!, by decide!, by decide!⟩
  intro s h
  simp only [parseInputDate] at h
  split at h
  next a b h1 c d h2 e f g k heq =>
    split at h
    next hcond =>
      split at h
      next hutc =>
        left
        constructor
        · simp only [ddmmyyyyShape, heq]
          exact hcond
        · have hy : yyyyOfDisplay (jsTrim s) = num4 e f g k := by
            simp [yyyyOfDisplay, heq]
          have hm : mmOfDisplay (jsTrim s) = num2 c d := by
            simp [mmOfDisplay, heq]
          have hd : ddOfDisplay (jsTrim s) = num2 a b := by
            simp [ddOfDisplay, heq]
          rw [hy, hm, hd]
          simp only [utcRoundTripOk, Bool.and_eq_true, and_assoc, decide_eq_true_eq] at hutc
          simp only [realGregorian, Bool.and_eq_true, and_assoc, decide_eq_true_eq]
          exact ⟨hutc.2.1, hutc.2.2.1, hutc.2.2.2.1, hutc.2.2.2.2⟩
      next => exact absurd h (by simp)
    next => exact Or.inr (parseISOKey_shape _ h)
  next => exact Or.inr (parseISOKey_shape _ h)

/-- Witness for C4 at `"29-02-2024"`: parsing succeeds and the conclusion of
the amended theorem holds there. -/
theorem parseFlexible_only_real_dates_witness :
    (parseInputDate "29-02-2024").isSome = true ∧
    ((ddmmyyyyShape (jsTrim "29-02-2024") = true ∧
        realGregorian (yyyyOfDisplay (jsTrim "29-02-2024")) (mmOfDisplay (jsTrim "29-02-2024"))
          (ddOfDisplay (jsTrim "29-02-2024")) = true) ∨
      (yyyymmddShape (jsTrim "29-02-2024") = true ∧
        realGregorian (yyyyOfIso (jsTrim "29-02-2024")) (mmOfIso (jsTrim "29-02-2024"))
          (ddOfIso (jsTrim "29-02-2024")) = true)) :=
  ⟨by decide!, parseFlexible_only_real_dates.1 "29-02-2024" (by decide!)⟩

/-- C9 counterexample: `"01-01-0150"` is a valid `DD-MM-YYYY` date (pattern
match, real Gregorian date), and it parses successfully — but the emitted ISO
string is `"150-01-01"` (the year is not zero-padded), which the display
formatter rejects, so the round trip does not return the original string. -/
theorem formatDisplay_roundTrip_counterexample :
    ddmmyyyyShape "01-01-0150" = true ∧
    realGregorian (yyyyOfDisplay "01-01-0150") (mmOfDisplay "01-01-0150")
      (ddOfDisplay "01-01-0150") = true ∧
    parseInputDate "01-01-0150" = some "150-01-01" ∧
    formatDDMMYYYY ((parseInputDate "01-01-0150").getD "") ≠ "01-01-0150" :=
  ⟨by decide!, by decide!, by decide!, by decide!⟩

/-- C9 (amended): for every whitespace-free valid `DD-MM-YYYY` string whose
year is at least 1000 (so the unpadded `${yyyy}` rendering is 4 digits),
formatting the parse result back to display form is the identity. -/
theorem formatDisplay_parse_roundTrip (s : String) (hm : ddmmyyyyShape s = true)
    (ht : jsTrim s = s)
    (hr : realGregorian (yyyyOfDisplay s) (mmOfDisplay s) (ddOfDisplay s) = true)
    (hy : 1000 ≤ yyyyOfDisplay s) :
    formatDDMMYYYY ((parseInputDate s).getD "") = s := by
  obtain ⟨a, b, c, d, e, f, g, k, heq, ha, hb, hc, hd, he, hf, hg, hk⟩ :=
    ddmmyyyyShape_chars s hm
  have hyv : yyyyOfDisplay s = num4 e f g k := by simp [yyyyOfDisplay, heq]
  have hmv : mmOfDisplay s = num2 c d := by simp [mmOfDisplay, heq]
  have hdv : ddOfDisplay s = num2 a b := by simp [ddOfDisplay, heq]
  rw [hyv] at hy
  rw [hyv, hmv, hdv] at hr
  have hutc : utcRoundTripOk (num4 e f g k) (num2 c d) (num2 a b) = true := by
    simp only [realGregorian, Bool.and_eq_true, and_assoc, decide_eq_true_eq] at hr
    simp only [utcRoundTripOk, Bool.and_eq_true, and_assoc, decide_eq_true_eq]
    exact ⟨by omega, hr.1, hr.2.1, hr.2.2.1, hr.2.2.2⟩
  have hparse : parseInputDate s =
      some (String.mk (decChars (num4 e f g k) ++ '-' :: pad2Chars (num2 c d) ++
        '-' :: pad2Chars (num2 a b))) := by
    simp [parseInputDate, ht, heq, ha, hb, hc, hd, he, hf, hg, hk, hutc]
  rw [hparse]
  simp only [Option.getD_some]
  rw [decChars_num4 he hf hg hk hy, pad2Chars_num2 hc hd, pad2Chars_num2 ha hb]
  have hfmt : formatDDMMYYYY (String.mk ([e, f, g, k] ++ '-' :: [c, d] ++ '-' :: [a, b])) =
      if isDigitCh e && isDigitCh f && isDigitCh g && isDigitCh k && ('-' == '-') &&
          isDigitCh c && isDigitCh d && ('-' == '-') && isDigitCh a && isDigitCh b then
        String.mk [a, b, '-', c, d, '-', e, f, g, k]
      else "—" := rfl
  rw [hfmt, if_pos (by simp [ha, hb, hc, hd, he, hf, hg, hk])]
  rw [← heq]

/-- Witness for C9 at `"29-02-2024"`: the hypotheses hold and the round trip
returns the original string. -/
theorem formatDisplay_parse_roundTrip_witness :
    ddmmyyyyShape "29-02-2024" = true ∧
    jsTrim "29-02-2024" = "29-02-2024" ∧
    realGregorian (yyyyOfDisplay "29-02-2024") (mmOfDisplay "29-02-2024")
      (ddOfDisplay "29-02-2024") = true ∧
    1000 ≤ yyyyOfDisplay "29-02-2024" ∧
    formatDDMMYYYY ((parseInputDate "29-02-2024").getD "") = "29-02-2024" :=
  ⟨by decide!, by decide!, by decide!, by decide!,
   formatDisplay_parse_roundTrip "29-02-2024" (by decide!) (by decide!) (by decide!)
     (by decide!)⟩
